import Mathlib

/-!
Verification of the cohort-analytics core of the dashboard repository.

The development shallowly embeds the TypeScript sources
`src/dashboard/src/lib/analytics/utils.ts` (date/key arithmetic, ratio
parsing, currency conversion, CAC and break-even) and
`src/dashboard/src/components/dashboard/Dashboard.tsx` (the retention and
LTV pivot builders) into Lean.

Modelling conventions:
* JS numbers are modelled as rationals; the distinguished non-finite
  values (NaN, Infinity) are modelled by `Option`/dedicated constructors
  where the code tests `Number.isFinite`.
* JS strings are modelled as Lean strings, and the JS string operations
  used by the code (split, trim, relational comparison, parseInt,
  parseFloat) are implemented below over `List Char` so that all
  definitions are executable by the kernel.
* JS records (`Record<number, number|undefined>`) are modelled as
  association lists where a later write shadows earlier ones, or as
  functions into `Option` where the code only reads.
-/

/-! ### JS string primitives -/

/-- Code-unit lexicographic comparison of character lists, the order JS
uses for its relational operators on strings. -/
def jsLtL : List Char → List Char → Bool
  | [], [] => false
  | [], _ :: _ => true
  | _ :: _, [] => false
  | a :: as, b :: bs =>
    if a.toNat < b.toNat then true
    else if b.toNat < a.toNat then false
    else jsLtL as bs

/-- JS string comparison `a < b` (code-unit lexicographic). -/
def jsLt (a b : String) : Bool := jsLtL a.data b.data

/-- Split a character list at every occurrence of the separator
character, the behaviour of JS `String.prototype.split` with a
one-character separator. -/
def splitChar (c : Char) : List Char → List (List Char)
  | [] => [[]]
  | x :: xs =>
    if x = c then [] :: splitChar c xs
    else
      match splitChar c xs with
      | [] => [[x]]
      | h :: t => (x :: h) :: t

/-- Whitespace characters recognised by JS `trim`, `parseInt` and
`parseFloat` (the ASCII subset, which covers every string this system
produces or consumes). -/
def isJsWs (c : Char) : Bool :=
  c = ' ' || c = '\t' || c = '\n' || c = '\r'

/-- JS `String.prototype.trim` on a character list. -/
def trimChars (l : List Char) : List Char :=
  ((l.dropWhile isJsWs).reverse.dropWhile isJsWs).reverse

/-- Decimal digit test, `'0' ≤ c ≤ '9'`. -/
def isDigitChar (c : Char) : Bool :=
  48 ≤ c.toNat && c.toNat ≤ 57

/-- Numeric value of a list of decimal digits, most significant first
(the accumulator loop both `parseInt` and `parseFloat` perform). -/
def digitsVal (ds : List Char) : Nat :=
  ds.foldl (fun a c => a * 10 + (c.toNat - 48)) 0

/-- Longest leading run of decimal digits, interpreted as a number;
`none` when there is no leading digit. -/
def jsParseIntCore (l : List Char) : Option Nat :=
  let ds := l.takeWhile isDigitChar
  if ds.isEmpty then none else some (digitsVal ds)

/-- JS `Number.parseInt(s, 10)`: skip leading whitespace, read an
optional sign and then the longest run of decimal digits; `none` models
the NaN result used when no digit is found. -/
def jsParseInt (l : List Char) : Option Int :=
  let l1 := l.dropWhile isJsWs
  if l1.headD ' ' = '-' then (jsParseIntCore l1.tail).map (fun n => -(n : Int))
  else if l1.headD ' ' = '+' then (jsParseIntCore l1.tail).map (fun n => (n : Int))
  else (jsParseIntCore l1).map (fun n => (n : Int))

/-- Exponent part of a JS float literal: an optional sign followed by
digits; an exponent marker not followed by digits is ignored (JS parses
the string prefix that forms a valid literal). -/
def jsExpPart (l : List Char) : Int :=
  if l.headD ' ' = '-' then
    match jsParseIntCore l.tail with
    | some n => -(n : Int)
    | none => 0
  else if l.headD ' ' = '+' then
    match jsParseIntCore l.tail with
    | some n => (n : Int)
    | none => 0
  else
    match jsParseIntCore l with
    | some n => (n : Int)
    | none => 0

/-- Fractional digits of a JS float literal: the digits after a leading
dot, if any. -/
def jsFracPart (l : List Char) : List Char :=
  if l.headD ' ' = '.' then l.tail.takeWhile isDigitChar else []

/-- JS `Number.parseFloat`: optional whitespace and sign, integer
digits, optional fraction, optional exponent; `none` models NaN (no
digits at all) and also the non-finite `Infinity` results, which the
only caller (`parseRetention`) maps to `0` through its
`Number.isFinite` guard exactly as it maps NaN. -/
def jsParseFloat (l : List Char) : Option ℚ :=
  let l1 := l.dropWhile isJsWs
  let sign : ℚ := if l1.headD ' ' = '-' then -1 else 1
  let l2 := if l1.headD ' ' = '-' || l1.headD ' ' = '+' then l1.tail else l1
  let intPart := l2.takeWhile isDigitChar
  let l3 := l2.drop intPart.length
  let fracPart := jsFracPart l3
  let l4 := if l3.headD ' ' = '.' then (l3.tail.drop fracPart.length) else l3
  if intPart.isEmpty && fracPart.isEmpty then none
  else
    let mantissa : ℚ :=
      (digitsVal intPart : ℚ) + (digitsVal fracPart : ℚ) / ((10 : ℚ) ^ fracPart.length)
    let e : Int :=
      if l4.headD ' ' = 'e' || l4.headD ' ' = 'E' then jsExpPart l4.tail else 0
    some (sign * mantissa * (10 : ℚ) ^ e)

/-- Decimal digit character for `n % 10`. -/
def digitChar (n : Nat) : Char := Char.ofNat (48 + n % 10)

/-- Decimal digits of a natural number, most significant first, as JS
number-to-string conversion produces for integral values. -/
def natDecDigits (n : Nat) : List Char :=
  if _h : n < 10 then [digitChar n]
  else natDecDigits (n / 10) ++ [digitChar (n % 10)]
termination_by n
decreasing_by exact Nat.div_lt_self (by omega) (by omega)

/-- JS template interpolation of an integer-valued number. -/
def intDecDigits (i : Int) : List Char :=
  if i < 0 then '-' :: natDecDigits i.natAbs else natDecDigits i.toNat

/-- JS `String.prototype.padStart(k, "0")` on a character list. -/
def padZeros (k : Nat) (l : List Char) : List Char :=
  List.replicate (k - l.length) '0' ++ l

/-! ### utils.ts -/

/-- The parsed-date component of `parseCohortMonthKey`: a JS `Date`
is modelled as a (year, zero-based month index) pair, with `none` for
an invalid date (`new Date(NaN)`). -/
abbrev JsDate := Option (Int × Int)

/-- Translation of `parseCohortMonthKey` (utils.ts lines 3-14): take
the date portion before the first space, split on dashes, parse year
and month in base 10; on failure return an invalid date and the empty
key, otherwise the date and the key composed of the year and the
two-digit zero-padded month. -/
def parseCohortMonthKey (raw : String) : JsDate × String :=
  let dateStr := trimChars ((splitChar ' ' raw.data).headD [])
  let parts := splitChar '-' dateStr
  let year := parts.headD []
  let month := (parts.drop 1).headD []
  match jsParseInt year, jsParseInt month with
  | some y, some m => (some (y, m - 1), String.mk (intDecDigits y ++ '-' :: padZeros 2 (intDecDigits m)))
  | _, _ => (none, "")

/-- A JS value of TypeScript type `unknown`, as far as `parseRetention`
inspects it: a finite number, a non-finite number (NaN or an infinity),
a string, or anything else. -/
inductive JsVal where
  | num (q : ℚ)
  | nanOrInf
  | str (s : String)
  | other
deriving DecidableEq

/-- Translation of `parseRetention` (utils.ts lines 16-31): finite
numbers pass through, non-finite numbers become 0, strings are trimmed
and parsed as floats (with a percent suffix dividing by 100), anything
unparseable or of another type becomes 0. -/
def parseRetention : JsVal → ℚ
  | JsVal.num q => q
  | JsVal.nanOrInf => 0
  | JsVal.str s =>
    let trimmed := trimChars s.data
    if trimmed.isEmpty then 0
    else if trimmed.getLast? = some '%' then
      match jsParseFloat trimmed.dropLast with
      | some pct => pct / 100
      | none => 0
    else
      match jsParseFloat trimmed with
      | some numeric => numeric
      | none => 0
  | JsVal.other => 0

/-- Translation of `monthsDiff` (utils.ts lines 45-51): zero if either
key is empty, otherwise split both keys on dashes, parse the leading
year and month of each, return zero if any parse fails, otherwise the
month difference clamped to zero. -/
def monthsDiff (startKey endKey : String) : Nat :=
  if startKey.data.isEmpty || endKey.data.isEmpty then 0
  else
    let sp := (splitChar '-' startKey.data).map jsParseInt
    let ep := (splitChar '-' endKey.data).map jsParseInt
    match sp.getD 0 none, sp.getD 1 none, ep.getD 0 none, ep.getD 1 none with
    | some sy, some sm, some ey, some em => ((ey - sy) * 12 + (em - sm)).toNat
    | _, _, _, _ => 0

/-- Translation of the conversion constant `AED_TO_USD = 1 / 3.6725`
(utils.ts line 69). -/
def AED_TO_USD : ℚ := 1 / 3.6725

/-- Translation of `aedToUsd` (utils.ts lines 76-78). -/
def aedToUsd (aedValue : ℚ) : ℚ := aedValue * AED_TO_USD

/-- Translation of `calculateCacUsd` (utils.ts lines 86-89): undefined
when the spend is undefined or the cohort size is not positive,
otherwise the converted spend divided by the cohort size. -/
def calculateCacUsd (spendAed : Option ℚ) (cohortSize : ℚ) : Option ℚ :=
  match spendAed with
  | none => none
  | some spend => if cohortSize ≤ 0 then none else some (aedToUsd spend / cohortSize)

/-- Translation of `findBreakEvenMonth` (utils.ts lines 98-111):
undefined when the CAC is undefined, otherwise the first offset in
`0..maxMonth` whose present value converts to at least the CAC; the
values record is modelled as a function into `Option`. -/
def findBreakEvenMonth (values : Nat → Option ℚ) (cacUsd : Option ℚ) (maxMonth : Nat) : Option Nat :=
  match cacUsd with
  | none => none
  | some cac =>
    (List.range (maxMonth + 1)).find? (fun m =>
      match values m with
      | some ltv => decide (aedToUsd ltv ≥ cac)
      | none => false)

/-- Translation of the `MARKETING_SPEND_AED` table (constants.ts):
monthly marketing spend in AED keyed by cohort month. -/
def MARKETING_SPEND_AED : List (String × ℚ) :=
  [("2024-10", 3034), ("2024-11", 14765), ("2024-12", 17466),
   ("2025-01", 27372), ("2025-02", 16761), ("2025-03", 39748),
   ("2025-04", 38939), ("2025-05", 49600), ("2025-06", 50600),
   ("2025-07", 51880), ("2025-08", 58139), ("2025-09", 94500),
   ("2025-10", 80142), ("2025-11", 68266), ("2025-12", 74215),
   ("2026-01", 84900)]

/-- JS record read `MARKETING_SPEND_AED[key]`: `none` models the
`undefined` result for a missing key. -/
def marketingSpendAed (key : String) : Option ℚ :=
  (MARKETING_SPEND_AED.find? (fun e => e.1 = key)).map (fun e => e.2)

/-! ### Dashboard.tsx — fact rows, filters and the pivot builders -/

/-- Translation of the `RetentionRow` shape consumed by
`buildRetentionPivot`: the string-typed discriminators are kept as
strings (the TS types are string-literal unions), the numeric fields as
rationals, and the offset month as a natural number. -/
structure RetentionRow where
  cohortMonth : JsDate
  cohortMonthKey : String
  dimension : String
  first_value : String
  m : Nat
  metric : String
  segment : String
  cohort_size : ℚ
  retention : ℚ
deriving DecidableEq

/-- Translation of the `LtvRow` shape consumed by `buildLtvPivot`. -/
structure LtvRow where
  cohort_type : String
  cohortMonth : JsDate
  cohortMonthKey : String
  dimension : String
  first_value : String
  m : Nat
  metric : String
  measure : String
  segment : String
  cohort_size : ℚ
  ltv_per_user : ℚ
deriving DecidableEq

/-- The filter criteria bundle passed to `buildRetentionPivot`. -/
structure RetentionFilters where
  dimension : String
  metric : String
  segment : String
  firstValue : String
  startMonth : String
  endMonth : String
deriving DecidableEq

/-- The filter criteria bundle passed to `buildLtvPivot` (the retention
criteria plus a measure). -/
structure LtvFilters where
  dimension : String
  metric : String
  segment : String
  firstValue : String
  startMonth : String
  endMonth : String
  measure : String
deriving DecidableEq

/-- Translation of the row filter inside `buildRetentionPivot`
(Dashboard.tsx lines 39-48), clause for clause in source order. -/
def retentionPass (f : RetentionFilters) (row : RetentionRow) : Bool :=
  if row.segment ≠ f.segment then false
  else if row.dimension ≠ f.dimension then false
  else if f.dimension ≠ "overall" ∧ row.first_value ≠ f.firstValue then false
  else if row.metric ≠ f.metric then false
  else if f.startMonth ≠ "" ∧ jsLt row.cohortMonthKey f.startMonth then false
  else if f.endMonth ≠ "" ∧ jsLt f.endMonth row.cohortMonthKey then false
  else if f.dimension = "overall" ∧ row.first_value ≠ "ALL" then false
  else true

/-- Translation of the row filter inside `buildLtvPivot` (Dashboard.tsx
lines 91-102), clause for clause in source order; unlike the retention
filter it also checks the measure and rejects any row whose cohort key
is at or past the observation boundary. -/
def ltvPass (f : LtvFilters) (lastObservedMonth : String) (row : LtvRow) : Bool :=
  if row.segment ≠ f.segment then false
  else if row.dimension ≠ f.dimension then false
  else if f.dimension ≠ "overall" ∧ row.first_value ≠ f.firstValue then false
  else if row.metric ≠ f.metric then false
  else if row.measure ≠ f.measure then false
  else if f.startMonth ≠ "" ∧ jsLt row.cohortMonthKey f.startMonth then false
  else if f.endMonth ≠ "" ∧ jsLt f.endMonth row.cohortMonthKey then false
  else if lastObservedMonth ≠ "" ∧ ¬ jsLt row.cohortMonthKey lastObservedMonth then false
  else if f.dimension = "overall" ∧ row.first_value ≠ "ALL" then false
  else true

/-- One entry of the `byMonth` map inside the pivot builders: the
cohort size captured at creation, and the sparse offset-to-value
record. A record write prepends, and reads take the first match, so a
later write to the same offset shadows an earlier one as JS assignment
does. -/
structure GroupData where
  size : ℚ
  values : List (Nat × ℚ)
deriving DecidableEq

/-- The `byMonth` map: an insertion-ordered association list. -/
abbrev Groups := List (String × GroupData)

/-- Map read `byMonth.get(k)`. -/
def lookupG : Groups → String → Option GroupData
  | [], _ => none
  | e :: rest, k => if e.1 = k then some e.2 else lookupG rest k

/-- The conditional `byMonth.set(k, {size, values: {}})` performed when
the key is not yet present (Dashboard.tsx lines 52-54 and 108-110). -/
def insertIfAbsent (gs : Groups) (k : String) (sz : ℚ) : Groups :=
  if (lookupG gs k).isSome then gs else gs ++ [(k, ⟨sz, []⟩)]

/-- The record write `group.values[m] = v` on the group stored at key
`k`. -/
def recordValue (gs : Groups) (k : String) (m : Nat) (v : ℚ) : Groups :=
  gs.map (fun e => if e.1 = k then (e.1, ⟨e.2.size, (m, v) :: e.2.values⟩) else e)

/-- One iteration of the grouping loop of `buildRetentionPivot`
(Dashboard.tsx lines 51-59): ensure the cohort group exists, then skip
the row when the boundary is known and its offset exceeds the allowed
month difference, otherwise record its retention ratio. (The source
assigns `Number.MAX_SAFE_INTEGER` to `allowed` when the boundary is
empty, but that value is only ever compared under the same emptiness
test, so the skip condition reduces to the one written here.) -/
def retStep (lastObservedMonth : String) (gs : Groups) (row : RetentionRow) : Groups :=
  let gs1 := insertIfAbsent gs row.cohortMonthKey row.cohort_size
  if lastObservedMonth ≠ "" ∧ row.m > monthsDiff row.cohortMonthKey lastObservedMonth then gs1
  else recordValue gs1 row.cohortMonthKey row.m row.retention

/-- One iteration of the grouping loop of `buildLtvPivot`
(Dashboard.tsx lines 107-117): as for retention, plus rows with a
non-positive value are skipped, and a running maximum of the recorded
values is maintained. -/
def ltvStep (lastObservedMonth : String) (st : Groups × ℚ) (row : LtvRow) : Groups × ℚ :=
  let gs1 := insertIfAbsent st.1 row.cohortMonthKey row.cohort_size
  if lastObservedMonth ≠ "" ∧ row.m > monthsDiff row.cohortMonthKey lastObservedMonth then (gs1, st.2)
  else if row.ltv_per_user ≤ 0 then (gs1, st.2)
  else (recordValue gs1 row.cohortMonthKey row.m row.ltv_per_user, max st.2 row.ltv_per_user)

/-- One output row of a pivot (the `HeatmapRow` shape). -/
structure PivotRow where
  cohortMonth : String
  cohortSize : ℚ
  values : List (Nat × ℚ)
deriving DecidableEq

/-- The `PivotResult` shape: ordered rows, the column count, and (for
LTV only) the largest recorded cell value. -/
structure PivotResult where
  rows : List PivotRow
  maxMonth : Nat
  maxValue : Option ℚ
deriving DecidableEq

/-- Ordered insertion used to model the ascending sort of the pivot
rows by cohort key (`localeCompare` on the zero-padded ASCII keys is
code-unit comparison). -/
def insertSorted (r : PivotRow) : List PivotRow → List PivotRow
  | [] => [r]
  | x :: xs => if jsLt r.cohortMonth x.cohortMonth then r :: x :: xs else x :: insertSorted r xs

/-- The ascending sort of the pivot rows. -/
def sortRows (l : List PivotRow) : List PivotRow := l.foldr insertSorted []

/-- Translation of `buildRetentionPivot` (Dashboard.tsx lines 27-76):
filter, group with truncation, sort, and compute the column count from
the filtered rows. -/
def buildRetentionPivot (rows : List RetentionRow) (f : RetentionFilters)
    (lastObservedMonth : String) : PivotResult :=
  let filtered := rows.filter (retentionPass f)
  let byMonth := filtered.foldl (retStep lastObservedMonth) []
  let ordered := sortRows (byMonth.map (fun e => ⟨e.1, e.2.size, e.2.values⟩))
  let maxMonth :=
    if filtered.isEmpty then 0
    else if lastObservedMonth ≠ "" then
      (filtered.map (fun row => monthsDiff row.cohortMonthKey lastObservedMonth)).foldr max 0
    else (filtered.map (fun row => row.m)).foldr max 0
  ⟨ordered, maxMonth, none⟩

/-- Translation of `buildLtvPivot` (Dashboard.tsx lines 78-134): as for
retention, with the boundary exclusion inside the filter, the
non-positive-value skip, and the running maximum cell value. -/
def buildLtvPivot (rows : List LtvRow) (f : LtvFilters)
    (lastObservedMonth : String) : PivotResult :=
  let filtered := rows.filter (ltvPass f lastObservedMonth)
  let st := filtered.foldl (ltvStep lastObservedMonth) ([], 0)
  let ordered := sortRows (st.1.map (fun e => ⟨e.1, e.2.size, e.2.values⟩))
  let maxMonth :=
    if filtered.isEmpty then 0
    else if lastObservedMonth ≠ "" then
      (filtered.map (fun row => monthsDiff row.cohortMonthKey lastObservedMonth)).foldr max 0
    else (filtered.map (fun row => row.m)).foldr max 0
  ⟨ordered, maxMonth, some st.2⟩

/-! ### Helper lemmas about the grouping machinery -/

/-- The common shape of one grouping-loop iteration: ensure the group
for key `k` exists (capturing size `sz` on creation), then record the
offset/value pair carried by `rc`, if any. -/
def stepKernel (k : String) (sz : ℚ) (rc : Option (Nat × ℚ)) (gs : Groups) : Groups :=
  let gs1 := insertIfAbsent gs k sz
  match rc with
  | none => gs1
  | some (m, v) => recordValue gs1 k m v

/-- What `retStep` records for a row: nothing when the truncation rule
skips it, otherwise its offset and retention ratio. -/
def retRec (lastObservedMonth : String) (row : RetentionRow) : Option (Nat × ℚ) :=
  if lastObservedMonth ≠ "" ∧ row.m > monthsDiff row.cohortMonthKey lastObservedMonth then none
  else some (row.m, row.retention)

/-- What `ltvStep` records for a row: nothing when the truncation rule
skips it or its value is non-positive, otherwise its offset and value. -/
def ltvRec (lastObservedMonth : String) (row : LtvRow) : Option (Nat × ℚ) :=
  if lastObservedMonth ≠ "" ∧ row.m > monthsDiff row.cohortMonthKey lastObservedMonth then none
  else if row.ltv_per_user ≤ 0 then none
  else some (row.m, row.ltv_per_user)

/-- The grouping loop, in the shape the inductions below use. -/
def groupFold {α : Type} (key : α → String) (sz : α → ℚ) (rc : α → Option (Nat × ℚ)) :
    Groups → List α → Groups
  | gs, [] => gs
  | gs, r :: rest => groupFold key sz rc (stepKernel (key r) (sz r) (rc r) gs) rest

/-- Spec reading of the retention filter criteria (spec section 4.2): the
conjunction of clauses the criteria bundle imposes on a row, with the JS
string order for the month-range comparisons. -/
def retentionPassSpec (f : RetentionFilters) (row : RetentionRow) : Prop :=
  row.segment = f.segment ∧
  row.dimension = f.dimension ∧
  (f.dimension ≠ "overall" → row.first_value = f.firstValue) ∧
  (f.dimension = "overall" → row.first_value = "ALL") ∧
  row.metric = f.metric ∧
  (f.startMonth = "" ∨ jsLt row.cohortMonthKey f.startMonth = false) ∧
  (f.endMonth = "" ∨ jsLt f.endMonth row.cohortMonthKey = false)

/-- Spec reading of the LTV filter criteria (spec section 4.2): the
retention clauses plus the measure clause, and nothing else. -/
def ltvPassSpec (f : LtvFilters) (row : LtvRow) : Prop :=
  row.segment = f.segment ∧
  row.dimension = f.dimension ∧
  (f.dimension ≠ "overall" → row.first_value = f.firstValue) ∧
  (f.dimension = "overall" → row.first_value = "ALL") ∧
  row.metric = f.metric ∧
  row.measure = f.measure ∧
  (f.startMonth = "" ∨ jsLt row.cohortMonthKey f.startMonth = false) ∧
  (f.endMonth = "" ∨ jsLt f.endMonth row.cohortMonthKey = false)

/-- The cumulative-value record of the break-even scenario in the spec:
offsets 0, 1, 2 carry 100, 250, 400. -/
def breakEvenExampleValues : Nat → Option ℚ :=
  fun m => if m = 0 then some 100 else if m = 1 then some 250 else if m = 2 then some 400 else none

/-- The date string built from a (year, month) pair: the zero-padded
year, the zero-padded month and the first day of the month. -/
def builtDateString (y m : Nat) : String :=
  String.mk (padZeros 4 (natDecDigits y) ++ '-' :: (padZeros 2 (natDecDigits m) ++ '-' :: ['0', '1']))

/-- Sample retention fact: cohort 2025-01, offset 0, ratio 1, size 10
(the single-cohort scenario of the spec). -/
def sampleRetRow0 : RetentionRow :=
  ⟨none, "2025-01", "overall", "ALL", 0, "any", "all", 10, 1⟩

/-- Sample retention fact: cohort 2025-01, offset 1, ratio 0.7, size 10. -/
def sampleRetRow1 : RetentionRow :=
  ⟨none, "2025-01", "overall", "ALL", 1, "any", "all", 10, mkRat 7 10⟩

/-- Sample retention fact: cohort 2025-03 (at the observation boundary),
offset 0, ratio 1, size 4. -/
def sampleRetRowBoundary : RetentionRow :=
  ⟨none, "2025-03", "overall", "ALL", 0, "any", "all", 4, 1⟩

/-- Sample retention fact: cohort 2025-01 at offset 5, used to exercise
the truncation skip. -/
def sampleRetRowFar : RetentionRow :=
  ⟨none, "2025-01", "overall", "ALL", 5, "any", "all", 10, 1⟩

/-- The overall/any/all retention criteria with an unbounded month
range. -/
def sampleRetFilters : RetentionFilters :=
  ⟨"overall", "any", "all", "ALL", "", ""⟩

/-- Sample LTV fact: cohort 2025-01, offset 0, revenue 350 per user,
size 10. -/
def sampleLtvRow0 : LtvRow :=
  ⟨"purchase", none, "2025-01", "overall", "ALL", 0, "any", "revenue", "all", 10, 350⟩

/-- Sample LTV fact: cohort 2025-03, sitting exactly at the observation
boundary used in the boundary scenarios. -/
def sampleLtvRowBoundary : LtvRow :=
  ⟨"purchase", none, "2025-03", "overall", "ALL", 0, "any", "revenue", "all", 4, 350⟩

/-- Sample LTV fact with a non-positive value (0), which the LTV
builder treats as absent data. -/
def sampleLtvRowNonPos : LtvRow :=
  ⟨"purchase", none, "2025-01", "overall", "ALL", 0, "any", "revenue", "all", 10, 0⟩

/-- The overall/any/all revenue LTV criteria with an unbounded month
range. -/
def sampleLtvFilters : LtvFilters :=
  ⟨"overall", "any", "all", "ALL", "", "", "revenue"⟩

/-- A retention fact whose ratio field arrived as the non-numeric
string "abc" and was normalized by `parseRetention`. -/
def malformedRatioRow : RetentionRow :=
  ⟨none, "2024-10", "overall", "ALL", 0, "any", "all", 3, parseRetention (JsVal.str "abc")⟩

theorem retStep_eq_stepKernel (lm : String) (gs : Groups) (row : RetentionRow) :
    retStep lm gs row = stepKernel row.cohortMonthKey row.cohort_size (retRec lm row) gs := by
  unfold retStep stepKernel retRec
  split <;> simp

theorem ltvStep_fst (lm : String) (st : Groups × ℚ) (row : LtvRow) :
    (ltvStep lm st row).1 = stepKernel row.cohortMonthKey row.cohort_size (ltvRec lm row) st.1 := by
  unfold ltvStep stepKernel ltvRec
  split <;> [skip; split] <;> simp

theorem retFold_eq (lm : String) (l : List RetentionRow) (gs : Groups) :
    l.foldl (retStep lm) gs =
      groupFold (fun r => r.cohortMonthKey) (fun r => r.cohort_size) (retRec lm) gs l := by
  induction l generalizing gs with
  | nil => rfl
  | cons r rest ih => simp [List.foldl_cons, groupFold, retStep_eq_stepKernel, ih]

theorem ltvFold_fst (lm : String) (l : List LtvRow) (st : Groups × ℚ) :
    (l.foldl (ltvStep lm) st).1 =
      groupFold (fun r => r.cohortMonthKey) (fun r => r.cohort_size) (ltvRec lm) st.1 l := by
  induction l generalizing st with
  | nil => rfl
  | cons r rest ih => simp [List.foldl_cons, groupFold, ih, ltvStep_fst]

theorem lookupG_append (l1 l2 : Groups) (k : String) :
    lookupG (l1 ++ l2) k =
      match lookupG l1 k with
      | some g => some g
      | none => lookupG l2 k := by
  induction l1 with
  | nil => simp [lookupG]
  | cons e rest ih =>
    by_cases h : e.1 = k <;> simp [lookupG, h, ih]

theorem lookupG_recordValue (gs : Groups) (k0 : String) (m : Nat) (v : ℚ) (k : String) :
    lookupG (recordValue gs k0 m v) k =
      (lookupG gs k).map (fun g => if k0 = k then ⟨g.size, (m, v) :: g.values⟩ else g) := by
  induction gs with
  | nil => rfl
  | cons e rest ih =>
    rcases e with ⟨ek, eg⟩
    by_cases h1 : ek = k0 <;> by_cases h2 : ek = k
    · subst h1; subst h2
      simp [recordValue, lookupG]
    · subst h1
      simp only [recordValue, List.map_cons] at *
      simp [lookupG, h2, ih]
    · subst h2
      have hk : k0 ≠ ek := fun h => h1 h.symm
      simp only [recordValue, List.map_cons] at *
      simp [lookupG, h1, hk]
    · simp only [recordValue, List.map_cons] at *
      simp [lookupG, h1, h2, ih]

theorem keys_recordValue (gs : Groups) (k0 : String) (m : Nat) (v : ℚ) :
    (recordValue gs k0 m v).map Prod.fst = gs.map Prod.fst := by
  induction gs with
  | nil => rfl
  | cons e rest ih =>
    have hrest : recordValue rest k0 m v = rest.map
        (fun e => if e.1 = k0 then (e.1, ⟨e.2.size, (m, v) :: e.2.values⟩) else e) := rfl
    by_cases h : e.1 = k0 <;>
      simp only [recordValue, List.map_cons, h, if_pos, if_neg, ite_true, ite_false] <;>
      simp [← hrest, ih, h]

theorem lookupG_eq_none_iff (gs : Groups) (k : String) :
    lookupG gs k = none ↔ k ∉ gs.map Prod.fst := by
  induction gs with
  | nil => simp [lookupG]
  | cons e rest ih =>
    by_cases h : e.1 = k
    · simp [lookupG, h]
    · simp only [lookupG, if_neg h, ih, List.map_cons, List.mem_cons]
      constructor
      · rintro hn (h1 | h2)
        · exact h h1.symm
        · exact hn h2
      · intro hn h2
        exact hn (Or.inr h2)

theorem lookupG_insertIfAbsent (gs : Groups) (k0 : String) (sz : ℚ) (k : String) :
    lookupG (insertIfAbsent gs k0 sz) k =
      match lookupG gs k with
      | some g => some g
      | none => if k0 = k ∧ lookupG gs k0 = none then some ⟨sz, []⟩ else none := by
  unfold insertIfAbsent
  by_cases h : (lookupG gs k0).isSome
  · rw [if_pos h]
    rcases hk : lookupG gs k with _ | g
    · have : ¬ (k0 = k ∧ lookupG gs k0 = none) := by
        rintro ⟨h1, h2⟩
        rw [h2] at h
        simp at h
      simp [this]
    · simp
  · rw [if_neg h]
    rw [lookupG_append]
    rcases hk : lookupG gs k with _ | g
    · by_cases he : k0 = k
      · subst he
        simp only [Option.not_isSome_iff_eq_none] at h
        simp [lookupG, h, hk]
      · have hne : k0 ≠ k := he
        simp only [hk]
        simp [lookupG, hne]
    · simp [hk]

theorem lookupG_stepKernel (k0 : String) (sz : ℚ) (rc : Option (Nat × ℚ)) (gs : Groups) (k : String) :
    lookupG (stepKernel k0 sz rc gs) k =
      match lookupG gs k, rc with
      | some g, some p => some (if k0 = k then ⟨g.size, p :: g.values⟩ else g)
      | some g, none => some g
      | none, some p => if k0 = k then some ⟨sz, [p]⟩ else none
      | none, none => if k0 = k then some ⟨sz, []⟩ else none := by
  unfold stepKernel
  rcases rc with _ | ⟨m, v⟩
  · simp only
    rw [lookupG_insertIfAbsent]
    rcases hk : lookupG gs k with _ | g
    · by_cases he : k0 = k
      · subst he
        simp [hk]
      · simp [he]
    · simp
  · simp only
    rw [lookupG_recordValue, lookupG_insertIfAbsent]
    rcases hk : lookupG gs k with _ | g
    · by_cases he : k0 = k
      · subst he
        simp [hk]
      · simp [he]
    · simp

theorem keys_stepKernel (k0 : String) (sz : ℚ) (rc : Option (Nat × ℚ)) (gs : Groups) :
    (stepKernel k0 sz rc gs).map Prod.fst =
      if (lookupG gs k0).isSome then gs.map Prod.fst else gs.map Prod.fst ++ [k0] := by
  unfold stepKernel insertIfAbsent
  rcases rc with _ | ⟨m, v⟩ <;> by_cases h : (lookupG gs k0).isSome <;>
    simp [h, keys_recordValue]

theorem nodup_keys_stepKernel (k0 : String) (sz : ℚ) (rc : Option (Nat × ℚ)) (gs : Groups)
    (h : (gs.map Prod.fst).Nodup) : ((stepKernel k0 sz rc gs).map Prod.fst).Nodup := by
  rw [keys_stepKernel]
  by_cases hs : (lookupG gs k0).isSome
  · simpa [hs] using h
  · have hn : lookupG gs k0 = none := Option.not_isSome_iff_eq_none.mp hs
    have : k0 ∉ gs.map Prod.fst := (lookupG_eq_none_iff gs k0).mp hn
    simp [hs, List.nodup_append, h, this]

theorem nodup_keys_groupFold {α : Type} (key : α → String) (sz : α → ℚ)
    (rc : α → Option (Nat × ℚ)) (l : List α) (gs : Groups)
    (h : (gs.map Prod.fst).Nodup) :
    ((groupFold key sz rc gs l).map Prod.fst).Nodup := by
  induction l generalizing gs with
  | nil => exact h
  | cons r rest ih => exact ih _ (nodup_keys_stepKernel _ _ _ _ h)

theorem lookupG_of_mem (gs : Groups) (k : String) (g : GroupData)
    (hnd : (gs.map Prod.fst).Nodup) (hm : (k, g) ∈ gs) : lookupG gs k = some g := by
  induction gs with
  | nil => cases hm
  | cons e rest ih =>
    rcases List.mem_cons.mp hm with he | hr
    · rw [← he]
      simp [lookupG]
    · have hk : k ∈ rest.map Prod.fst := List.mem_map.mpr ⟨(k, g), hr, rfl⟩
      have hne : e.1 ≠ k := by
        intro hcontra
        rw [List.map_cons, List.nodup_cons] at hnd
        exact hnd.1 (hcontra ▸ hk)
      simp only [lookupG, if_neg hne]
      exact ih (by rw [List.map_cons, List.nodup_cons] at hnd; exact hnd.2) hr

theorem mem_of_lookupG (gs : Groups) (k : String) (g : GroupData)
    (h : lookupG gs k = some g) : (k, g) ∈ gs := by
  induction gs with
  | nil => cases h
  | cons e rest ih =>
    by_cases he : e.1 = k
    · simp only [lookupG, if_pos he] at h
      have hg : e.2 = g := Option.some.inj h
      have heq : e = (k, g) := by
        rcases e with ⟨ek, eg⟩
        cases he
        cases hg
        rfl
      exact List.mem_cons.mpr (Or.inl heq.symm)
    · simp only [lookupG, if_neg he] at h
      exact List.mem_cons.mpr (Or.inr (ih h))

theorem isSome_lookupG_groupFold {α : Type} (key : α → String) (sz : α → ℚ)
    (rc : α → Option (Nat × ℚ)) (l : List α) (gs : Groups) (k : String) :
    (lookupG (groupFold key sz rc gs l) k).isSome = true ↔
      (lookupG gs k).isSome = true ∨ ∃ r ∈ l, key r = k := by
  induction l generalizing gs with
  | nil => simp [groupFold]
  | cons r rest ih =>
    rw [groupFold, ih]
    have hstep := lookupG_stepKernel (key r) (sz r) (rc r) gs k
    constructor
    · rintro (hs | hr)
      · rw [hstep] at hs
        rcases hg : lookupG gs k with _ | g
        · rcases hrc : rc r with _ | p <;> rw [hg, hrc] at hs <;> simp at hs <;>
            exact Or.inr ⟨r, List.mem_cons_self r rest, hs⟩
        · exact Or.inl (by simp [hg])
      · rcases hr with ⟨r', hr', hk⟩
        exact Or.inr ⟨r', List.mem_cons.mpr (Or.inr hr'), hk⟩
    · rintro (hs | ⟨r', hr', hk⟩)
      · left
        rw [hstep]
        rcases hg : lookupG gs k with _ | g
        · rw [hg] at hs
          simp at hs
        · rcases hrc : rc r with _ | p <;> simp
      · rcases List.mem_cons.mp hr' with he | hrest
        · left
          rw [hstep]
          subst he
          rcases hg : lookupG gs k with _ | g <;> rcases hrc : rc r' with _ | p <;>
            simp [hk]
        · exact Or.inr ⟨r', hrest, hk⟩

theorem size_lookupG_groupFold {α : Type} (key : α → String) (sz : α → ℚ)
    (rc : α → Option (Nat × ℚ)) (l : List α) (gs : Groups) (k : String) :
    (lookupG (groupFold key sz rc gs l) k).map GroupData.size =
      match lookupG gs k with
      | some g => some g.size
      | none => (l.find? (fun r => decide (key r = k))).map sz := by
  induction l generalizing gs with
  | nil =>
    rcases hg : lookupG gs k with _ | g <;> simp [groupFold, hg]
  | cons r rest ih =>
    rw [groupFold, ih]
    have hstep := lookupG_stepKernel (key r) (sz r) (rc r) gs k
    rcases hg : lookupG gs k with _ | g
    · rw [hg] at hstep
      by_cases hk : key r = k
      · subst hk
        rcases hrc : rc r with _ | p <;> rw [hrc] at hstep <;>
          simp [hstep, List.find?_cons]
      · rcases hrc : rc r with _ | p <;> rw [hrc] at hstep <;>
          simp [hstep, hk, List.find?_cons]
    · rw [hg] at hstep
      rcases hrc : rc r with _ | p <;> rw [hrc] at hstep <;> simp [hstep] <;>
        by_cases hk : key r = k <;> simp [hk]

theorem values_lookupG_groupFold {α : Type} (key : α → String) (sz : α → ℚ)
    (rc : α → Option (Nat × ℚ)) (l : List α) (gs : Groups) (k : String)
    (g : GroupData) (p : Nat × ℚ)
    (hl : lookupG (groupFold key sz rc gs l) k = some g) (hp : p ∈ g.values) :
    (∃ g0, lookupG gs k = some g0 ∧ p ∈ g0.values) ∨ ∃ r ∈ l, key r = k ∧ rc r = some p := by
  induction l generalizing gs with
  | nil =>
    exact Or.inl ⟨g, hl, hp⟩
  | cons r rest ih =>
    rw [groupFold] at hl
    rcases ih _ hl with ⟨g0, hg0, hpg0⟩ | ⟨r', hr', hk', hrc'⟩
    · have hstep := lookupG_stepKernel (key r) (sz r) (rc r) gs k
      rw [hg0] at hstep
      rcases hg : lookupG gs k with _ | g1 <;> rcases hrc : rc r with _ | q <;>
        rw [hg, hrc] at hstep <;> simp only [] at hstep
      · by_cases hk : key r = k
        · rw [if_pos hk] at hstep
          have hge : g0 = ⟨sz r, []⟩ := Option.some.inj hstep
          rw [hge] at hpg0
          cases hpg0
        · rw [if_neg hk] at hstep
          cases hstep
      · by_cases hk : key r = k
        · rw [if_pos hk] at hstep
          have hge : g0 = ⟨sz r, [q]⟩ := Option.some.inj hstep
          rw [hge] at hpg0
          have hpq : p = q := by simpa using hpg0
          exact Or.inr ⟨r, List.mem_cons_self r rest, hk, by rw [hrc, hpq]⟩
        · rw [if_neg hk] at hstep
          cases hstep
      · have hge : g0 = g1 := Option.some.inj hstep
        exact Or.inl ⟨g1, rfl, hge ▸ hpg0⟩
      · by_cases hk : key r = k
        · rw [if_pos hk] at hstep
          have hge : g0 = ⟨g1.size, q :: g1.values⟩ := Option.some.inj hstep
          rw [hge] at hpg0
          rcases List.mem_cons.mp hpg0 with hpq | hpv
          · exact Or.inr ⟨r, List.mem_cons_self r rest, hk, by rw [hrc, hpq]⟩
          · exact Or.inl ⟨g1, rfl, hpv⟩
        · rw [if_neg hk] at hstep
          have hge : g0 = g1 := Option.some.inj hstep
          exact Or.inl ⟨g1, rfl, hge ▸ hpg0⟩
    · exact Or.inr ⟨r', List.mem_cons.mpr (Or.inr hr'), hk', hrc'⟩

theorem mem_insertSorted (r x : PivotRow) (l : List PivotRow) :
    x ∈ insertSorted r l ↔ x = r ∨ x ∈ l := by
  induction l with
  | nil => simp [insertSorted]
  | cons y ys ih =>
    by_cases h : jsLt r.cohortMonth y.cohortMonth = true
    · simp [insertSorted, h]
    · simp only [insertSorted, if_neg h, List.mem_cons, ih]
      tauto

theorem mem_sortRows (x : PivotRow) (l : List PivotRow) :
    x ∈ sortRows l ↔ x ∈ l := by
  induction l with
  | nil => simp [sortRows]
  | cons y ys ih =>
    simp only [sortRows, List.foldr_cons] at *
    rw [mem_insertSorted, ih, List.mem_cons]

theorem le_foldr_max (l : List Nat) (x : Nat) (h : x ∈ l) : x ≤ l.foldr max 0 := by
  induction l with
  | nil => cases h
  | cons y ys ih =>
    rcases List.mem_cons.mp h with he | hm
    · simp [he, le_max_iff]
    · simp only [List.foldr_cons]
      exact le_trans (ih hm) (le_max_right _ _)

theorem foldr_max_mem (l : List Nat) (h : l ≠ []) : l.foldr max 0 ∈ l := by
  induction l with
  | nil => exact absurd rfl h
  | cons y ys ih =>
    rcases List.eq_nil_or_concat ys with hnil | _
    · subst hnil
      simp
    · by_cases hys : ys = []
      · subst hys
        simp
      · have hm := ih hys
        simp only [List.foldr_cons]
        rcases max_choice y (ys.foldr max 0) with hc | hc <;> rw [hc]
        · exact List.mem_cons_self _ _
        · exact List.mem_cons.mpr (Or.inr hm)

theorem rows_buildRetentionPivot (rows : List RetentionRow) (f : RetentionFilters) (lm : String) :
    (buildRetentionPivot rows f lm).rows =
      sortRows (((rows.filter (retentionPass f)).foldl (retStep lm) []).map
        (fun e => ⟨e.1, e.2.size, e.2.values⟩)) := rfl

theorem maxMonth_buildRetentionPivot (rows : List RetentionRow) (f : RetentionFilters) (lm : String) :
    (buildRetentionPivot rows f lm).maxMonth =
      (if (rows.filter (retentionPass f)).isEmpty then 0
       else if lm ≠ "" then
        ((rows.filter (retentionPass f)).map
          (fun row => monthsDiff row.cohortMonthKey lm)).foldr max 0
       else ((rows.filter (retentionPass f)).map (fun row => row.m)).foldr max 0) := rfl

theorem rows_buildLtvPivot (rows : List LtvRow) (f : LtvFilters) (lm : String) :
    (buildLtvPivot rows f lm).rows =
      sortRows ((((rows.filter (ltvPass f lm)).foldl (ltvStep lm) ([], 0)).1).map
        (fun e => ⟨e.1, e.2.size, e.2.values⟩)) := rfl

theorem maxMonth_buildLtvPivot (rows : List LtvRow) (f : LtvFilters) (lm : String) :
    (buildLtvPivot rows f lm).maxMonth =
      (if (rows.filter (ltvPass f lm)).isEmpty then 0
       else if lm ≠ "" then
        ((rows.filter (ltvPass f lm)).map
          (fun row => monthsDiff row.cohortMonthKey lm)).foldr max 0
       else ((rows.filter (ltvPass f lm)).map (fun row => row.m)).foldr max 0) := rfl

theorem mem_rows_retention_iff (rows : List RetentionRow) (f : RetentionFilters) (lm : String)
    (out : PivotRow) :
    out ∈ (buildRetentionPivot rows f lm).rows ↔
      ∃ e ∈ groupFold (fun r : RetentionRow => r.cohortMonthKey) (fun r => r.cohort_size)
          (retRec lm) [] (rows.filter (retentionPass f)),
        out = ⟨e.1, e.2.size, e.2.values⟩ := by
  rw [rows_buildRetentionPivot, retFold_eq, mem_sortRows, List.mem_map]
  constructor <;> rintro ⟨e, he, heq⟩ <;> exact ⟨e, he, heq.symm⟩

theorem mem_rows_ltv_iff (rows : List LtvRow) (f : LtvFilters) (lm : String)
    (out : PivotRow) :
    out ∈ (buildLtvPivot rows f lm).rows ↔
      ∃ e ∈ groupFold (fun r : LtvRow => r.cohortMonthKey) (fun r => r.cohort_size)
          (ltvRec lm) [] (rows.filter (ltvPass f lm)),
        out = ⟨e.1, e.2.size, e.2.values⟩ := by
  rw [rows_buildLtvPivot, ltvFold_fst, mem_sortRows, List.mem_map]
  constructor <;> rintro ⟨e, he, heq⟩ <;> exact ⟨e, he, heq.symm⟩

theorem retention_out_values_origin (rows : List RetentionRow) (f : RetentionFilters)
    (lm : String) (out : PivotRow) (p : Nat × ℚ)
    (hout : out ∈ (buildRetentionPivot rows f lm).rows) (hp : p ∈ out.values) :
    ∃ r ∈ rows.filter (retentionPass f),
      r.cohortMonthKey = out.cohortMonth ∧ retRec lm r = some p := by
  rcases (mem_rows_retention_iff rows f lm out).mp hout with ⟨e, he, heq⟩
  have hnd := nodup_keys_groupFold (fun r : RetentionRow => r.cohortMonthKey)
    (fun r => r.cohort_size) (retRec lm) (rows.filter (retentionPass f)) [] (by simp)
  have hlk := lookupG_of_mem _ e.1 e.2 hnd (by simpa using he)
  have hpe : p ∈ e.2.values := by
    rw [heq] at hp
    simpa using hp
  rcases values_lookupG_groupFold _ _ _ _ _ _ _ _ hlk hpe with ⟨g0, hg0, _⟩ | ⟨r, hr, hk, hrc⟩
  · cases hg0
  · exact ⟨r, hr, by rw [heq]; exact hk, hrc⟩

theorem ltv_out_values_origin (rows : List LtvRow) (f : LtvFilters)
    (lm : String) (out : PivotRow) (p : Nat × ℚ)
    (hout : out ∈ (buildLtvPivot rows f lm).rows) (hp : p ∈ out.values) :
    ∃ r ∈ rows.filter (ltvPass f lm),
      r.cohortMonthKey = out.cohortMonth ∧ ltvRec lm r = some p := by
  rcases (mem_rows_ltv_iff rows f lm out).mp hout with ⟨e, he, heq⟩
  have hnd := nodup_keys_groupFold (fun r : LtvRow => r.cohortMonthKey)
    (fun r => r.cohort_size) (ltvRec lm) (rows.filter (ltvPass f lm)) [] (by simp)
  have hlk := lookupG_of_mem _ e.1 e.2 hnd (by simpa using he)
  have hpe : p ∈ e.2.values := by
    rw [heq] at hp
    simpa using hp
  rcases values_lookupG_groupFold _ _ _ _ _ _ _ _ hlk hpe with ⟨g0, hg0, _⟩ | ⟨r, hr, hk, hrc⟩
  · cases hg0
  · exact ⟨r, hr, by rw [heq]; exact hk, hrc⟩

theorem retention_out_key_origin (rows : List RetentionRow) (f : RetentionFilters)
    (lm : String) (out : PivotRow)
    (hout : out ∈ (buildRetentionPivot rows f lm).rows) :
    ∃ r ∈ rows.filter (retentionPass f), r.cohortMonthKey = out.cohortMonth := by
  rcases (mem_rows_retention_iff rows f lm out).mp hout with ⟨e, he, heq⟩
  have hnd := nodup_keys_groupFold (fun r : RetentionRow => r.cohortMonthKey)
    (fun r => r.cohort_size) (retRec lm) (rows.filter (retentionPass f)) [] (by simp)
  have hlk := lookupG_of_mem _ e.1 e.2 hnd (by simpa using he)
  have hs : (lookupG (groupFold (fun r : RetentionRow => r.cohortMonthKey)
      (fun r => r.cohort_size) (retRec lm) [] (rows.filter (retentionPass f))) e.1).isSome = true := by
    rw [hlk]
    rfl
  rcases (isSome_lookupG_groupFold _ _ _ _ _ _).mp hs with hemp | ⟨r, hr, hk⟩
  · cases hemp
  · exact ⟨r, hr, by rw [heq]; exact hk⟩

theorem ltv_out_key_origin (rows : List LtvRow) (f : LtvFilters)
    (lm : String) (out : PivotRow)
    (hout : out ∈ (buildLtvPivot rows f lm).rows) :
    ∃ r ∈ rows.filter (ltvPass f lm), r.cohortMonthKey = out.cohortMonth := by
  rcases (mem_rows_ltv_iff rows f lm out).mp hout with ⟨e, he, heq⟩
  have hnd := nodup_keys_groupFold (fun r : LtvRow => r.cohortMonthKey)
    (fun r => r.cohort_size) (ltvRec lm) (rows.filter (ltvPass f lm)) [] (by simp)
  have hlk := lookupG_of_mem _ e.1 e.2 hnd (by simpa using he)
  have hs : (lookupG (groupFold (fun r : LtvRow => r.cohortMonthKey)
      (fun r => r.cohort_size) (ltvRec lm) [] (rows.filter (ltvPass f lm))) e.1).isSome = true := by
    rw [hlk]
    rfl
  rcases (isSome_lookupG_groupFold _ _ _ _ _ _).mp hs with hemp | ⟨r, hr, hk⟩
  · cases hemp
  · exact ⟨r, hr, by rw [heq]; exact hk⟩

theorem retention_presence (rows : List RetentionRow) (f : RetentionFilters)
    (lm : String) (k : String)
    (h : ∃ r ∈ rows.filter (retentionPass f), r.cohortMonthKey = k) :
    ∃ out ∈ (buildRetentionPivot rows f lm).rows, out.cohortMonth = k := by
  have hs : (lookupG (groupFold (fun r : RetentionRow => r.cohortMonthKey)
      (fun r => r.cohort_size) (retRec lm) [] (rows.filter (retentionPass f))) k).isSome = true := by
    rw [isSome_lookupG_groupFold]
    exact Or.inr h
  rcases Option.isSome_iff_exists.mp hs with ⟨g, hg⟩
  have hm := mem_of_lookupG _ _ _ hg
  refine ⟨⟨k, g.size, g.values⟩, ?_, rfl⟩
  rw [mem_rows_retention_iff]
  exact ⟨(k, g), hm, rfl⟩

theorem ltv_presence (rows : List LtvRow) (f : LtvFilters)
    (lm : String) (k : String)
    (h : ∃ r ∈ rows.filter (ltvPass f lm), r.cohortMonthKey = k) :
    ∃ out ∈ (buildLtvPivot rows f lm).rows, out.cohortMonth = k := by
  have hs : (lookupG (groupFold (fun r : LtvRow => r.cohortMonthKey)
      (fun r => r.cohort_size) (ltvRec lm) [] (rows.filter (ltvPass f lm))) k).isSome = true := by
    rw [isSome_lookupG_groupFold]
    exact Or.inr h
  rcases Option.isSome_iff_exists.mp hs with ⟨g, hg⟩
  have hm := mem_of_lookupG _ _ _ hg
  refine ⟨⟨k, g.size, g.values⟩, ?_, rfl⟩
  rw [mem_rows_ltv_iff]
  exact ⟨(k, g), hm, rfl⟩

theorem retRec_le (lm : String) (r : RetentionRow) (p : Nat × ℚ) (hlm : lm ≠ "")
    (h : retRec lm r = some p) : p.1 ≤ monthsDiff r.cohortMonthKey lm := by
  unfold retRec at h
  by_cases hc : lm ≠ "" ∧ r.m > monthsDiff r.cohortMonthKey lm
  · rw [if_pos hc] at h
    cases h
  · rw [if_neg hc] at h
    have hp1 : p.1 = r.m := by
      have := Option.some.inj h
      rw [← this]
    rw [hp1]
    by_contra hgt
    exact hc ⟨hlm, by omega⟩

theorem ltvRec_le (lm : String) (r : LtvRow) (p : Nat × ℚ) (hlm : lm ≠ "")
    (h : ltvRec lm r = some p) : p.1 ≤ monthsDiff r.cohortMonthKey lm := by
  unfold ltvRec at h
  by_cases hc : lm ≠ "" ∧ r.m > monthsDiff r.cohortMonthKey lm
  · rw [if_pos hc] at h
    cases h
  · rw [if_neg hc] at h
    by_cases hv : r.ltv_per_user ≤ 0
    · rw [if_pos hv] at h
      cases h
    · rw [if_neg hv] at h
      have hp1 : p.1 = r.m := by
        have := Option.some.inj h
        rw [← this]
      rw [hp1]
      by_contra hgt
      exact hc ⟨hlm, by omega⟩

/-- Claim C3: for every retention or LTV pivot built with a non-empty
`lastObservedMonth`, every offset `m` recorded in any output row's
values mapping satisfies `m ≤ monthsDiff(cohortMonth, lastObservedMonth)`;
a row whose offset exceeds that bound is skipped and never recorded. -/
theorem claim_C3_truncation (retRows : List RetentionRow) (rf : RetentionFilters)
    (ltvRows : List LtvRow) (lf : LtvFilters) (lm : String) (hlm : lm ≠ "") :
    (∀ out ∈ (buildRetentionPivot retRows rf lm).rows, ∀ p ∈ out.values,
      p.1 ≤ monthsDiff out.cohortMonth lm) ∧
    (∀ out ∈ (buildLtvPivot ltvRows lf lm).rows, ∀ p ∈ out.values,
      p.1 ≤ monthsDiff out.cohortMonth lm) := by
  constructor
  · intro out hout p hp
    rcases retention_out_values_origin retRows rf lm out p hout hp with ⟨r, _, hk, hrc⟩
    have hle := retRec_le lm r p hlm hrc
    rwa [hk] at hle
  · intro out hout p hp
    rcases ltv_out_values_origin ltvRows lf lm out p hout hp with ⟨r, _, hk, hrc⟩
    have hle := ltvRec_le lm r p hlm hrc
    rwa [hk] at hle

/-- Witness for C3 at the single-cohort sample: the recorded offset 1 of
cohort 2025-01 is at most the two-month distance to the boundary. -/
theorem claim_C3_truncation_witness :
    ("2025-03" : String) ≠ "" ∧ (1 : Nat) ≤ monthsDiff "2025-01" "2025-03" :=
  ⟨by decide,
    (claim_C3_truncation [sampleRetRow0, sampleRetRow1] sampleRetFilters
        [sampleLtvRow0] sampleLtvFilters "2025-03" (by decide)).1
      ⟨"2025-01", 10, [(1, mkRat 7 10), (0, 1)]⟩ (by decide) (1, mkRat 7 10) (by decide)⟩

/-- Claim C9: when several filtered rows share a cohort month, the
output row's cohort size is the size carried by the first such row in
input order, in both pivot builders. -/
theorem claim_C9_first_row_size (retRows : List RetentionRow) (rf : RetentionFilters)
    (ltvRows : List LtvRow) (lf : LtvFilters) (lm : String) :
    (∀ out ∈ (buildRetentionPivot retRows rf lm).rows,
      ∃ r, (retRows.filter (retentionPass rf)).find?
          (fun x => decide (x.cohortMonthKey = out.cohortMonth)) = some r ∧
        out.cohortSize = r.cohort_size) ∧
    (∀ out ∈ (buildLtvPivot ltvRows lf lm).rows,
      ∃ r, (ltvRows.filter (ltvPass lf lm)).find?
          (fun x => decide (x.cohortMonthKey = out.cohortMonth)) = some r ∧
        out.cohortSize = r.cohort_size) := by
  constructor
  · intro out hout
    rcases (mem_rows_retention_iff retRows rf lm out).mp hout with ⟨e, he, heq⟩
    have hnd := nodup_keys_groupFold (fun r : RetentionRow => r.cohortMonthKey)
      (fun r => r.cohort_size) (retRec lm) (retRows.filter (retentionPass rf)) [] (by simp)
    have hlk := lookupG_of_mem _ e.1 e.2 hnd (by simpa using he)
    have hsz := size_lookupG_groupFold (fun r : RetentionRow => r.cohortMonthKey)
      (fun r => r.cohort_size) (retRec lm) (retRows.filter (retentionPass rf)) [] e.1
    rw [hlk] at hsz
    simp only [lookupG, Option.map_some] at hsz
    rcases Option.map_eq_some.mp hsz.symm with ⟨r, hfind, hr⟩
    subst heq
    exact ⟨r, hfind, hr.symm⟩
  · intro out hout
    rcases (mem_rows_ltv_iff ltvRows lf lm out).mp hout with ⟨e, he, heq⟩
    have hnd := nodup_keys_groupFold (fun r : LtvRow => r.cohortMonthKey)
      (fun r => r.cohort_size) (ltvRec lm) (ltvRows.filter (ltvPass lf lm)) [] (by simp)
    have hlk := lookupG_of_mem _ e.1 e.2 hnd (by simpa using he)
    have hsz := size_lookupG_groupFold (fun r : LtvRow => r.cohortMonthKey)
      (fun r => r.cohort_size) (ltvRec lm) (ltvRows.filter (ltvPass lf lm)) [] e.1
    rw [hlk] at hsz
    simp only [lookupG, Option.map_some] at hsz
    rcases Option.map_eq_some.mp hsz.symm with ⟨r, hfind, hr⟩
    subst heq
    exact ⟨r, hfind, hr.symm⟩

/-- Witness for C9: two rows of cohort 2024-10 with sizes 3 and 5; the
output row reports the first size, 3. -/
theorem claim_C9_first_row_size_witness :
    ∃ r, (([⟨none, "2024-10", "overall", "ALL", 0, "any", "all", 3, 1⟩,
            ⟨none, "2024-10", "overall", "ALL", 1, "any", "all", 5, 1⟩] :
            List RetentionRow).filter (retentionPass sampleRetFilters)).find?
        (fun x => decide (x.cohortMonthKey = (⟨"2024-10", 3, [(1, 1), (0, 1)]⟩ :
          PivotRow).cohortMonth)) = some r ∧
      (⟨"2024-10", 3, [(1, 1), (0, 1)]⟩ : PivotRow).cohortSize = r.cohort_size :=
  (claim_C9_first_row_size
      ([⟨none, "2024-10", "overall", "ALL", 0, "any", "all", 3, 1⟩,
        ⟨none, "2024-10", "overall", "ALL", 1, "any", "all", 5, 1⟩] : List RetentionRow)
      sampleRetFilters [sampleLtvRow0] sampleLtvFilters "").1
    ⟨"2024-10", 3, [(1, 1), (0, 1)]⟩ (by decide)

/-- Claim C10: both builders create a cohort's group entry on the first
filtered row, before the truncation skip and (for LTV) the
non-positive-value skip, so a cohort all of whose filtered rows are
skipped still appears in the output, with an empty values mapping. -/
theorem claim_C10_group_created_before_skip (retRows : List RetentionRow)
    (rf : RetentionFilters) (ltvRows : List LtvRow) (lf : LtvFilters)
    (lm : String) (k : String) :
    ((∃ r ∈ retRows.filter (retentionPass rf), r.cohortMonthKey = k) →
      ∃ out ∈ (buildRetentionPivot retRows rf lm).rows, out.cohortMonth = k ∧
        ((∀ r ∈ retRows.filter (retentionPass rf), r.cohortMonthKey = k →
            lm ≠ "" ∧ r.m > monthsDiff r.cohortMonthKey lm) →
          out.values = [])) ∧
    ((∃ r ∈ ltvRows.filter (ltvPass lf lm), r.cohortMonthKey = k) →
      ∃ out ∈ (buildLtvPivot ltvRows lf lm).rows, out.cohortMonth = k ∧
        ((∀ r ∈ ltvRows.filter (ltvPass lf lm), r.cohortMonthKey = k →
            (lm ≠ "" ∧ r.m > monthsDiff r.cohortMonthKey lm) ∨ r.ltv_per_user ≤ 0) →
          out.values = [])) := by
  constructor
  · intro hex
    rcases retention_presence retRows rf lm k hex with ⟨out, hout, hk⟩
    refine ⟨out, hout, hk, ?_⟩
    intro hall
    rw [List.eq_nil_iff_forall_not_mem]
    intro p hp
    rcases retention_out_values_origin retRows rf lm out p hout hp with ⟨r, hr, hrk, hrc⟩
    have hskip := hall r hr (by rw [hrk, hk])
    unfold retRec at hrc
    rw [if_pos hskip] at hrc
    cases hrc
  · intro hex
    rcases ltv_presence ltvRows lf lm k hex with ⟨out, hout, hk⟩
    refine ⟨out, hout, hk, ?_⟩
    intro hall
    rw [List.eq_nil_iff_forall_not_mem]
    intro p hp
    rcases ltv_out_values_origin ltvRows lf lm out p hout hp with ⟨r, hr, hrk, hrc⟩
    rcases hall r hr (by rw [hrk, hk]) with hskip | hval
    · unfold ltvRec at hrc
      rw [if_pos hskip] at hrc
      cases hrc
    · unfold ltvRec at hrc
      by_cases hskip : lm ≠ "" ∧ r.m > monthsDiff r.cohortMonthKey lm
      · rw [if_pos hskip] at hrc
        cases hrc
      · rw [if_neg hskip, if_pos hval] at hrc
        cases hrc

/-- Witness for C10: a cohort whose only filtered retention row has
offset 5, far past the 2025-03 boundary, still yields an output row;
likewise an LTV cohort whose only row has value 0. -/
theorem claim_C10_group_created_before_skip_witness :
    (∃ r ∈ ([sampleRetRowFar] : List RetentionRow).filter (retentionPass sampleRetFilters),
        r.cohortMonthKey = "2025-01") ∧
    (∃ out ∈ (buildRetentionPivot [sampleRetRowFar] sampleRetFilters "2025-03").rows,
      out.cohortMonth = "2025-01" ∧
        ((∀ r ∈ ([sampleRetRowFar] : List RetentionRow).filter (retentionPass sampleRetFilters),
            r.cohortMonthKey = "2025-01" →
            ("2025-03" : String) ≠ "" ∧ r.m > monthsDiff r.cohortMonthKey "2025-03") →
          out.values = [])) ∧
    (∃ out ∈ (buildLtvPivot [sampleLtvRowNonPos] sampleLtvFilters "2025-03").rows,
      out.cohortMonth = "2025-01" ∧
        ((∀ r ∈ ([sampleLtvRowNonPos] : List LtvRow).filter (ltvPass sampleLtvFilters "2025-03"),
            r.cohortMonthKey = "2025-01" →
            (("2025-03" : String) ≠ "" ∧ r.m > monthsDiff r.cohortMonthKey "2025-03") ∨
              r.ltv_per_user ≤ 0) →
          out.values = [])) :=
  ⟨by decide,
    (claim_C10_group_created_before_skip [sampleRetRowFar] sampleRetFilters
        [sampleLtvRowNonPos] sampleLtvFilters "2025-03" "2025-01").1 (by decide),
    (claim_C10_group_created_before_skip [sampleRetRowFar] sampleRetFilters
        [sampleLtvRowNonPos] sampleLtvFilters "2025-03" "2025-01").2 (by decide)⟩

theorem monthsDiff_self (k : String) : monthsDiff k k = 0 := by
  unfold monthsDiff
  by_cases h : k.data.isEmpty
  · simp [h]
  · simp only [h, Bool.or_self, if_neg]
    rcases h0 : ((splitChar '-' k.data).map jsParseInt).getD 0 none with _ | y <;>
      rcases h1 : ((splitChar '-' k.data).map jsParseInt).getD 1 none with _ | m <;>
      simp [h0, h1]

theorem ltvPass_boundary (f : LtvFilters) (lm : String) (row : LtvRow) (hlm : lm ≠ "")
    (h : ltvPass f lm row = true) : jsLt row.cohortMonthKey lm = true := by
  by_cases hj : jsLt row.cohortMonthKey lm = true
  · exact hj
  · exfalso
    have hb : lm ≠ "" ∧ ¬ jsLt row.cohortMonthKey lm = true := ⟨hlm, hj⟩
    have hfalse : ltvPass f lm row = false := by
      unfold ltvPass
      split_ifs <;> rfl
    rw [h] at hfalse
    cases hfalse

/-- Claim C2: with a non-empty boundary, every LTV fact row whose cohort
month is at or past the boundary is excluded before grouping and
contributes nothing to the LTV pivot (deleting all such rows leaves the
pivot unchanged, and no output row carries such a cohort month), while a
retention row with cohort month equal to the boundary still yields a
retention output row, whose recorded offsets are all 0 (truncated
columns). -/
theorem claim_C2_ltv_boundary_exclusion (ltvRows : List LtvRow) (lf : LtvFilters)
    (retRows : List RetentionRow) (rf : RetentionFilters) (lm : String) (hlm : lm ≠ "") :
    (buildLtvPivot ltvRows lf lm =
      buildLtvPivot (ltvRows.filter (fun row => jsLt row.cohortMonthKey lm)) lf lm) ∧
    (∀ out ∈ (buildLtvPivot ltvRows lf lm).rows, jsLt out.cohortMonth lm = true) ∧
    (∀ row ∈ retRows, retentionPass rf row = true → row.cohortMonthKey = lm →
      ∃ out ∈ (buildRetentionPivot retRows rf lm).rows, out.cohortMonth = lm ∧
        ∀ p ∈ out.values, p.1 = 0) := by
  have hfilter : (ltvRows.filter (fun row => jsLt row.cohortMonthKey lm)).filter
      (ltvPass lf lm) = ltvRows.filter (ltvPass lf lm) := by
    rw [List.filter_filter]
    apply List.filter_congr
    intro row _
    by_cases hp : ltvPass lf lm row = true
    · rw [hp, ltvPass_boundary lf lm row hlm hp]
      rfl
    · simp only [Bool.not_eq_true] at hp
      rw [hp, Bool.false_and]
  refine ⟨?_, ?_, ?_⟩
  · unfold buildLtvPivot
    rw [hfilter]
  · intro out hout
    rcases ltv_out_key_origin ltvRows lf lm out hout with ⟨r, hr, hk⟩
    have hp := (List.mem_filter.mp hr).2
    rw [← hk]
    exact ltvPass_boundary lf lm r hlm hp
  · intro row hrow hpass hkey
    have hmem : row ∈ retRows.filter (retentionPass rf) := List.mem_filter.mpr ⟨hrow, hpass⟩
    rcases retention_presence retRows rf lm lm ⟨row, hmem, hkey⟩ with ⟨out, hout, hk⟩
    refine ⟨out, hout, hk, ?_⟩
    intro p hp
    have hb := (claim_C3_truncation retRows rf ltvRows lf lm hlm).1 out hout p hp
    rw [hk, monthsDiff_self] at hb
    omega

/-- Witness for C2 at the boundary scenario: the LTV pivot over a single
row at cohort 2025-03 with boundary 2025-03 is unchanged by deleting all
rows at or past the boundary, and the identical retention cohort still
yields an output row whose recorded offsets are all 0. -/
theorem claim_C2_ltv_boundary_exclusion_witness :
    (buildLtvPivot [sampleLtvRowBoundary] sampleLtvFilters "2025-03" =
      buildLtvPivot (([sampleLtvRowBoundary] : List LtvRow).filter
        (fun row => jsLt row.cohortMonthKey "2025-03")) sampleLtvFilters "2025-03") ∧
    (∃ out ∈ (buildRetentionPivot [sampleRetRowBoundary] sampleRetFilters "2025-03").rows,
      out.cohortMonth = "2025-03" ∧ ∀ p ∈ out.values, p.1 = 0) :=
  ⟨(claim_C2_ltv_boundary_exclusion [sampleLtvRowBoundary] sampleLtvFilters
      [sampleRetRowBoundary] sampleRetFilters "2025-03" (by decide)).1,
   (claim_C2_ltv_boundary_exclusion [sampleLtvRowBoundary] sampleLtvFilters
      [sampleRetRowBoundary] sampleRetFilters "2025-03" (by decide)).2.2
    sampleRetRowBoundary (by decide) (by decide) (by decide)⟩

theorem foldr_max_ub_mem {α : Type} (l : List α) (g : α → Nat) :
    (∀ r ∈ l, g r ≤ (l.map g).foldr max 0) ∧
    (l ≠ [] → ∃ r ∈ l, g r = (l.map g).foldr max 0) := by
  constructor
  · intro r hr
    exact le_foldr_max _ _ (List.mem_map.mpr ⟨r, hr, rfl⟩)
  · intro hne
    have hmem := foldr_max_mem (l.map g) (by simpa using hne)
    rcases List.mem_map.mp hmem with ⟨r, hr, hg⟩
    exact ⟨r, hr, hg⟩

/-- Claim C6: a pivot's `maxMonth` is 0 when the filtered set is empty;
with an empty boundary it is the largest offset among the filtered rows;
with a non-empty boundary it is the largest `monthsDiff` from a filtered
row's cohort month to the boundary, which can exceed every recorded
offset — in the single-cohort 2025-01 sample with boundary 2025-03 the
pivot records offsets 0 and 1 yet reports `maxMonth = 2`. -/
theorem claim_C6_maxMonth (retRows : List RetentionRow) (rf : RetentionFilters)
    (ltvRows : List LtvRow) (lf : LtvFilters) (lm : String) :
    (retRows.filter (retentionPass rf) = [] →
      (buildRetentionPivot retRows rf lm).maxMonth = 0) ∧
    (lm = "" →
      (∀ r ∈ retRows.filter (retentionPass rf),
        r.m ≤ (buildRetentionPivot retRows rf lm).maxMonth) ∧
      (retRows.filter (retentionPass rf) ≠ [] →
        ∃ r ∈ retRows.filter (retentionPass rf),
          r.m = (buildRetentionPivot retRows rf lm).maxMonth)) ∧
    (lm ≠ "" →
      (∀ r ∈ retRows.filter (retentionPass rf),
        monthsDiff r.cohortMonthKey lm ≤ (buildRetentionPivot retRows rf lm).maxMonth) ∧
      (retRows.filter (retentionPass rf) ≠ [] →
        ∃ r ∈ retRows.filter (retentionPass rf),
          monthsDiff r.cohortMonthKey lm = (buildRetentionPivot retRows rf lm).maxMonth)) ∧
    (ltvRows.filter (ltvPass lf lm) = [] →
      (buildLtvPivot ltvRows lf lm).maxMonth = 0) ∧
    (lm = "" →
      (∀ r ∈ ltvRows.filter (ltvPass lf lm),
        r.m ≤ (buildLtvPivot ltvRows lf lm).maxMonth) ∧
      (ltvRows.filter (ltvPass lf lm) ≠ [] →
        ∃ r ∈ ltvRows.filter (ltvPass lf lm),
          r.m = (buildLtvPivot ltvRows lf lm).maxMonth)) ∧
    (lm ≠ "" →
      (∀ r ∈ ltvRows.filter (ltvPass lf lm),
        monthsDiff r.cohortMonthKey lm ≤ (buildLtvPivot ltvRows lf lm).maxMonth) ∧
      (ltvRows.filter (ltvPass lf lm) ≠ [] →
        ∃ r ∈ ltvRows.filter (ltvPass lf lm),
          monthsDiff r.cohortMonthKey lm = (buildLtvPivot ltvRows lf lm).maxMonth)) ∧
    (buildRetentionPivot [sampleRetRow0, sampleRetRow1] sampleRetFilters "2025-03" =
      ⟨[⟨"2025-01", 10, [(1, mkRat 7 10), (0, 1)]⟩], 2, none⟩ ∧
     monthsDiff "2025-01" "2025-03" = 2) := by
  refine ⟨?_, ?_, ?_, ?_, ?_, ?_, by decide⟩
  · intro h
    rw [maxMonth_buildRetentionPivot, h]
    rfl
  · intro hlm
    subst hlm
    rw [maxMonth_buildRetentionPivot]
    by_cases h : retRows.filter (retentionPass rf) = []
    · refine ⟨fun r hr => ?_, fun hne => absurd h hne⟩
      rw [h] at hr
      cases hr
    · have hne : (retRows.filter (retentionPass rf)).isEmpty = false := by
        simpa [List.isEmpty_iff] using h
      simp only [hne, ne_eq, not_true_eq_false, if_false, Bool.false_eq_true]
      exact foldr_max_ub_mem _ _
  · intro hlm
    rw [maxMonth_buildRetentionPivot]
    by_cases h : retRows.filter (retentionPass rf) = []
    · refine ⟨fun r hr => ?_, fun hne => absurd h hne⟩
      rw [h] at hr
      cases hr
    · have hne : (retRows.filter (retentionPass rf)).isEmpty = false := by
        simpa [List.isEmpty_iff] using h
      simp only [hne, hlm, ne_eq, not_false_eq_true, if_true, Bool.false_eq_true]
      exact foldr_max_ub_mem _ _
  · intro h
    rw [maxMonth_buildLtvPivot, h]
    rfl
  · intro hlm
    subst hlm
    rw [maxMonth_buildLtvPivot]
    by_cases h : ltvRows.filter (ltvPass lf "") = []
    · refine ⟨fun r hr => ?_, fun hne => absurd h hne⟩
      rw [h] at hr
      cases hr
    · have hne : (ltvRows.filter (ltvPass lf "")).isEmpty = false := by
        simpa [List.isEmpty_iff] using h
      simp only [hne, ne_eq, not_true_eq_false, if_false, Bool.false_eq_true]
      exact foldr_max_ub_mem _ _
  · intro hlm
    rw [maxMonth_buildLtvPivot]
    by_cases h : ltvRows.filter (ltvPass lf lm) = []
    · refine ⟨fun r hr => ?_, fun hne => absurd h hne⟩
      rw [h] at hr
      cases hr
    · have hne : (ltvRows.filter (ltvPass lf lm)).isEmpty = false := by
        simpa [List.isEmpty_iff] using h
      simp only [hne, hlm, ne_eq, not_false_eq_true, if_true, Bool.false_eq_true]
      exact foldr_max_ub_mem _ _

/-- Witness for C6 at the single-cohort sample with boundary 2025-03:
some filtered row attains the reported column count. -/
theorem claim_C6_maxMonth_witness :
    ∃ r ∈ ([sampleRetRow0, sampleRetRow1] : List RetentionRow).filter
        (retentionPass sampleRetFilters),
      monthsDiff r.cohortMonthKey "2025-03" =
        (buildRetentionPivot [sampleRetRow0, sampleRetRow1] sampleRetFilters "2025-03").maxMonth :=
  ((claim_C6_maxMonth [sampleRetRow0, sampleRetRow1] sampleRetFilters
      [sampleLtvRow0] sampleLtvFilters "2025-03").2.2.1 (by decide)).2 (by decide)

theorem retentionPass_iff (rf : RetentionFilters) (row : RetentionRow) :
    retentionPass rf row = true ↔ retentionPassSpec rf row := by
  unfold retentionPass retentionPassSpec
  split_ifs with h1 h2 h3 h4 h5 h6 h7 <;>
    simp_all [not_and_or, Bool.not_eq_true] <;> tauto

theorem ltvPass_iff (lf : LtvFilters) (lm : String) (row : LtvRow) :
    ltvPass lf lm row = true ↔
      ltvPassSpec lf row ∧ (lm = "" ∨ jsLt row.cohortMonthKey lm = true) := by
  unfold ltvPass ltvPassSpec
  split_ifs with h1 h2 h3 h4 h5 h6 h7 h8 h9 <;>
    simp_all [not_and_or, Bool.not_eq_true] <;> tauto

/-- Claim C4 (amended): a fact row enters the retention pivot's filtered
set iff it satisfies the criteria conjunction (segment, dimension,
dimension value against the ALL sentinel for overall, metric, and the
optional month range); a fact row enters the LTV pivot's filtered set
iff it additionally matches the measure and, when `lastObservedMonth` is
non-empty, its cohort month is strictly before that boundary. -/
theorem claim_C4_filter_characterization (rows : List RetentionRow) (lrows : List LtvRow)
    (rf : RetentionFilters) (lf : LtvFilters) (lm : String)
    (row : RetentionRow) (lrow : LtvRow) :
    (row ∈ rows →
      (row ∈ rows.filter (retentionPass rf) ↔ retentionPassSpec rf row)) ∧
    (lrow ∈ lrows →
      (lrow ∈ lrows.filter (ltvPass lf lm) ↔
        ltvPassSpec lf lrow ∧ (lm = "" ∨ jsLt lrow.cohortMonthKey lm = true))) := by
  constructor
  · intro hmem
    rw [List.mem_filter, retentionPass_iff]
    exact ⟨fun h => h.2, fun h => ⟨hmem, h⟩⟩
  · intro hmem
    rw [List.mem_filter, ltvPass_iff]
    exact ⟨fun h => h.2, fun h => ⟨hmem, h⟩⟩

/-- Witness for C4 at the overall/any/all sample row. -/
theorem claim_C4_filter_characterization_witness :
    sampleRetRow0 ∈ ([sampleRetRow0] : List RetentionRow).filter
        (retentionPass sampleRetFilters) ↔ retentionPassSpec sampleRetFilters sampleRetRow0 :=
  (claim_C4_filter_characterization [sampleRetRow0] [sampleLtvRow0]
      sampleRetFilters sampleLtvFilters "" sampleRetRow0 sampleLtvRow0).1 (by decide)

/-- Counterexample to C4 as frozen: an LTV row satisfying every listed
criterion (segment, dimension, ALL sentinel, metric, measure, month
range) nevertheless does not enter the LTV pivot's filtered set when its
cohort month is not strictly before the non-empty boundary. -/
theorem claim_C4_counterexample :
    ltvPassSpec sampleLtvFilters sampleLtvRowBoundary ∧
    ([sampleLtvRowBoundary] : List LtvRow).filter (ltvPass sampleLtvFilters "2025-03") = [] := by
  constructor
  · exact ⟨rfl, rfl, fun h => absurd rfl h, fun _ => rfl, rfl, rfl, Or.inl rfl, Or.inl rfl⟩
  · decide

/-- Claim C5: `calculateCacUsd` returns undefined exactly when the spend
is undefined or the cohort size is non-positive, and otherwise the
converted spend divided by the cohort size; a cohort with no entry in
the spend table gets an undefined CAC, and the break-even scan with an
undefined CAC returns undefined — never 0 and never a number. -/
theorem claim_C5_cac_undefined (spend : Option ℚ) (size : ℚ)
    (values : Nat → Option ℚ) (maxM : Nat) (k : String) :
    (calculateCacUsd spend size = none ↔ spend = none ∨ size ≤ 0) ∧
    (∀ s, spend = some s → 0 < size →
      calculateCacUsd spend size = some (aedToUsd s / size)) ∧
    (marketingSpendAed k = none →
      calculateCacUsd (marketingSpendAed k) size = none ∧
      findBreakEvenMonth values (calculateCacUsd (marketingSpendAed k) size) maxM = none) := by
  refine ⟨?_, ?_, ?_⟩
  · unfold calculateCacUsd
    rcases spend with _ | s
    · simp
    · by_cases h : size ≤ 0 <;> simp [h]
  · intro s hs hpos
    subst hs
    show (if size ≤ 0 then none else some (aedToUsd s / size)) = some (aedToUsd s / size)
    rw [if_neg (not_le.mpr hpos)]
  · intro h
    rw [h]
    exact ⟨rfl, rfl⟩

/-- Witness for C5: spend 100 over a cohort of 5 gives a defined CAC;
the month 2024-01 is absent from the spend table and yields an undefined
CAC and an undefined break-even month. -/
theorem claim_C5_cac_undefined_witness :
    (0 : ℚ) < 5 ∧ marketingSpendAed "2024-01" = none ∧
    calculateCacUsd (some 100) 5 = some (aedToUsd 100 / 5) ∧
    findBreakEvenMonth breakEvenExampleValues
      (calculateCacUsd (marketingSpendAed "2024-01") 5) 3 = none :=
  ⟨by decide, by decide,
    (claim_C5_cac_undefined (some 100) 5 breakEvenExampleValues 3 "2024-01").2.1
      100 rfl (by decide),
    ((claim_C5_cac_undefined (some 100) 5 breakEvenExampleValues 3 "2024-01").2.2
      (by decide)).2⟩

/-- Counterexample to C1 as frozen: on the cumulative values
{0: 100, 1: 250, 2: 400} with cac = 260 the scan returns undefined, not
2, because `findBreakEvenMonth` converts each value from AED to USD
before comparing and `aedToUsd 400 < 260`. -/
theorem claim_C1_counterexample :
    findBreakEvenMonth breakEvenExampleValues (some 260) 2 = none ∧
    findBreakEvenMonth breakEvenExampleValues (some 260) 2 ≠ some 2 := by
  have h0 : ¬ ((260 : ℚ) ≤ aedToUsd 100) := by
    unfold aedToUsd AED_TO_USD
    norm_num
  have h1 : ¬ ((260 : ℚ) ≤ aedToUsd 250) := by
    unfold aedToUsd AED_TO_USD
    norm_num
  have h2 : ¬ ((260 : ℚ) ≤ aedToUsd 400) := by
    unfold aedToUsd AED_TO_USD
    norm_num
  have hmain : findBreakEvenMonth breakEvenExampleValues (some 260) 2 = none := by
    unfold findBreakEvenMonth
    rw [(by decide : List.range (2 + 1) = [0, 1, 2])]
    simp [breakEvenExampleValues, List.find?, ge_iff_le, h0, h1, h2]
  refine ⟨hmain, ?_⟩
  rw [hmain]
  intro hc
  cases hc

/-- Claim C1 (amended): the scan compares converted values, so on
{0: 100, 1: 250, 2: 400} it returns 2 for a cac equal to the converted
value of 260 AED, and undefined for cac = 500. -/
theorem claim_C1_break_even_converted :
    findBreakEvenMonth breakEvenExampleValues (some (aedToUsd 260)) 2 = some 2 ∧
    findBreakEvenMonth breakEvenExampleValues (some 500) 2 = none := by
  have ha : ¬ (aedToUsd 260 ≤ aedToUsd 100) := by
    unfold aedToUsd AED_TO_USD
    norm_num
  have hb : ¬ (aedToUsd 260 ≤ aedToUsd 250) := by
    unfold aedToUsd AED_TO_USD
    norm_num
  have hc : aedToUsd 260 ≤ aedToUsd 400 := by
    unfold aedToUsd AED_TO_USD
    norm_num
  have h5a : ¬ ((500 : ℚ) ≤ aedToUsd 100) := by
    unfold aedToUsd AED_TO_USD
    norm_num
  have h5b : ¬ ((500 : ℚ) ≤ aedToUsd 250) := by
    unfold aedToUsd AED_TO_USD
    norm_num
  have h5c : ¬ ((500 : ℚ) ≤ aedToUsd 400) := by
    unfold aedToUsd AED_TO_USD
    norm_num
  constructor
  · unfold findBreakEvenMonth
    rw [(by decide : List.range (2 + 1) = [0, 1, 2])]
    simp [breakEvenExampleValues, List.find?, ge_iff_le, ha, hb, hc]
  · unfold findBreakEvenMonth
    rw [(by decide : List.range (2 + 1) = [0, 1, 2])]
    simp [breakEvenExampleValues, List.find?, ge_iff_le, h5a, h5b, h5c]

/-- Counterexample to C8 as frozen: the non-numeric ratio string "abc"
is normalized to 0, and a fact row carrying it is recorded in the
retention pivot with ratio 0 rather than excluded. -/
theorem claim_C8_counterexample :
    parseRetention (JsVal.str "abc") = 0 ∧
    ∃ out ∈ (buildRetentionPivot [malformedRatioRow] sampleRetFilters "").rows,
      (0, 0) ∈ out.values := by
  decide

/-- Claim C8 (amended): a retention ratio that is a non-empty,
non-percent, unparseable string is normalized to 0 by `parseRetention`
(as are non-finite numbers and non-number non-string values), the row is
then recorded in the pivot as a ratio of 0, and the condition is never
raised to the caller as a failure. -/
theorem claim_C8_nonnumeric_ratio_zero :
    (∀ s : String, (trimChars s.data).isEmpty = false →
      (trimChars s.data).getLast? ≠ some '%' →
      jsParseFloat (trimChars s.data) = none →
      parseRetention (JsVal.str s) = 0) ∧
    parseRetention JsVal.nanOrInf = 0 ∧
    parseRetention JsVal.other = 0 ∧
    (buildRetentionPivot [malformedRatioRow] sampleRetFilters "").rows =
      [⟨"2024-10", 3, [(0, 0)]⟩] := by
  refine ⟨?_, rfl, rfl, by decide⟩
  intro s he hpct hpf
  show (if (trimChars s.data).isEmpty = true then (0 : ℚ)
        else if (trimChars s.data).getLast? = some '%' then
          match jsParseFloat (trimChars s.data).dropLast with
          | some pct => pct / 100
          | none => 0
        else
          match jsParseFloat (trimChars s.data) with
          | some numeric => numeric
          | none => 0) = 0
  rw [if_neg (by simp [he]), if_neg hpct, hpf]

/-- Witness for C8 at the string "abc". -/
theorem claim_C8_nonnumeric_ratio_zero_witness :
    (trimChars "abc".data).isEmpty = false ∧
    jsParseFloat (trimChars "abc".data) = none ∧
    parseRetention (JsVal.str "abc") = 0 :=
  ⟨by decide, by decide,
    claim_C8_nonnumeric_ratio_zero.1 "abc" (by decide) (by decide) (by decide)⟩

theorem digitChar_toNat (n : Nat) : (digitChar n).toNat = 48 + n % 10 := by
  have h : n % 10 < 10 := Nat.mod_lt _ (by omega)
  have h10 : n % 10 = 0 ∨ n % 10 = 1 ∨ n % 10 = 2 ∨ n % 10 = 3 ∨ n % 10 = 4 ∨
      n % 10 = 5 ∨ n % 10 = 6 ∨ n % 10 = 7 ∨ n % 10 = 8 ∨ n % 10 = 9 := by omega
  unfold digitChar
  rcases h10 with h | h | h | h | h | h | h | h | h | h <;> rw [h] <;> decide

theorem isDigitChar_digitChar (n : Nat) : isDigitChar (digitChar n) = true := by
  have h : n % 10 < 10 := Nat.mod_lt _ (by omega)
  unfold isDigitChar
  rw [digitChar_toNat]
  simp only [Bool.and_eq_true, decide_eq_true_eq]
  omega

theorem natDecDigits_all_digits (n : Nat) : ∀ c ∈ natDecDigits n, isDigitChar c = true := by
  induction n using Nat.strong_induction_on with
  | _ n ih =>
    rw [natDecDigits]
    by_cases h : n < 10
    · simp only [dif_pos h, List.mem_singleton]
      rintro c rfl
      exact isDigitChar_digitChar n
    · simp only [dif_neg h, List.mem_append, List.mem_singleton]
      rintro c (hc | rfl)
      · exact ih (n / 10) (Nat.div_lt_self (by omega) (by omega)) c hc
      · exact isDigitChar_digitChar (n % 10)

theorem natDecDigits_ne_nil (n : Nat) : natDecDigits n ≠ [] := by
  rw [natDecDigits]
  by_cases h : n < 10
  · simp [dif_pos h]
  · simp [dif_neg h]

theorem digitsVal_append_digit (xs : List Char) (c : Char) :
    digitsVal (xs ++ [c]) = 10 * digitsVal xs + (c.toNat - 48) := by
  unfold digitsVal
  rw [List.foldl_append]
  simp [Nat.mul_comm]

theorem digitsVal_natDecDigits (n : Nat) : digitsVal (natDecDigits n) = n := by
  induction n using Nat.strong_induction_on with
  | _ n ih =>
    rw [natDecDigits]
    by_cases h : n < 10
    · simp only [dif_pos h]
      have : digitsVal [digitChar n] = (digitChar n).toNat - 48 := by
        unfold digitsVal
        simp
      rw [this, digitChar_toNat]
      omega
    · simp only [dif_neg h]
      rw [digitsVal_append_digit, ih (n / 10) (Nat.div_lt_self (by omega) (by omega)),
        digitChar_toNat]
      omega

theorem natDecDigits_length (k : Nat) : ∀ n, 10 ^ k ≤ n → n < 10 ^ (k + 1) →
    (natDecDigits n).length = k + 1 := by
  induction k with
  | zero =>
    intro n h1 h2
    rw [natDecDigits]
    have h2' : n < 10 := by simpa using h2
    simp [dif_pos h2']
  | succ k ih =>
    intro n h1 h2
    have hn10 : ¬ n < 10 := by
      have : (10 : Nat) ≤ 10 ^ (k + 1) := by
        calc (10 : Nat) = 10 ^ 1 := (pow_one 10).symm
        _ ≤ 10 ^ (k + 1) := Nat.pow_le_pow_right (by omega) (by omega)
      omega
    rw [natDecDigits]
    simp only [dif_neg hn10, List.length_append, List.length_singleton]
    have hlo : 10 ^ k ≤ n / 10 := by
      rw [Nat.le_div_iff_mul_le (by omega)]
      calc 10 ^ k * 10 = 10 ^ (k + 1) := by ring
      _ ≤ n := h1
    have hhi : n / 10 < 10 ^ (k + 1) := by
      rw [Nat.div_lt_iff_lt_mul (by omega)]
      calc n < 10 ^ (k + 2) := h2
      _ = 10 ^ (k + 1) * 10 := by ring
    rw [ih (n / 10) hlo hhi]

theorem isDigitChar_not_ws (c : Char) (h : isDigitChar c = true) : isJsWs c = false := by
  unfold isDigitChar at h
  unfold isJsWs
  simp only [Bool.and_eq_true, decide_eq_true_eq] at h
  simp only [Bool.or_eq_false_iff, decide_eq_false_iff_not]
  refine ⟨⟨⟨?_, ?_⟩, ?_⟩, ?_⟩ <;> rintro rfl <;> simp_all

theorem isDigitChar_ne_dash (c : Char) (h : isDigitChar c = true) : c ≠ '-' := by
  rintro rfl
  cases h

theorem isDigitChar_ne_plus (c : Char) (h : isDigitChar c = true) : c ≠ '+' := by
  rintro rfl
  cases h

theorem jsParseIntCore_digits (ds : List Char) (hne : ds ≠ [])
    (hd : ∀ c ∈ ds, isDigitChar c = true) : jsParseIntCore ds = some (digitsVal ds) := by
  unfold jsParseIntCore
  rw [List.takeWhile_eq_self_iff.mpr hd]
  simp [List.isEmpty_iff, hne]

theorem jsParseInt_digits (ds : List Char) (hne : ds ≠ [])
    (hd : ∀ c ∈ ds, isDigitChar c = true) :
    jsParseInt ds = some ((digitsVal ds : Nat) : Int) := by
  rcases ds with _ | ⟨c, rest⟩
  · exact absurd rfl hne
  have hc : isDigitChar c = true := hd c (List.mem_cons_self _ _)
  have hws : isJsWs c = false := isDigitChar_not_ws c hc
  have hd1 : c ≠ '-' := isDigitChar_ne_dash c hc
  have hd2 : c ≠ '+' := isDigitChar_ne_plus c hc
  unfold jsParseInt
  rw [List.dropWhile_cons, hws]
  simp only [Bool.false_eq_true, if_false, List.headD_cons]
  rw [if_neg hd1, if_neg hd2, jsParseIntCore_digits _ hne hd]
  rfl

theorem splitChar_no_sep (c : Char) (l : List Char) (h : c ∉ l) : splitChar c l = [l] := by
  induction l with
  | nil => rfl
  | cons x xs ih =>
    have hx : x ≠ c := fun he => h (he ▸ List.mem_cons_self _ _)
    have hxs : c ∉ xs := fun hm => h (List.mem_cons.mpr (Or.inr hm))
    rw [splitChar, if_neg hx, ih hxs]

theorem splitChar_sep_append (c : Char) (A B : List Char) (h : c ∉ A) :
    splitChar c (A ++ c :: B) = A :: splitChar c B := by
  induction A with
  | nil =>
    simp only [List.nil_append]
    rw [splitChar, if_pos rfl]
  | cons x xs ih =>
    have hx : x ≠ c := fun he => h (he ▸ List.mem_cons_self _ _)
    have hxs : c ∉ xs := fun hm => h (List.mem_cons.mpr (Or.inr hm))
    rw [List.cons_append, splitChar, if_neg hx, ih hxs]

theorem dropWhile_eq_self_of_neg (p : Char → Bool) (l : List Char)
    (h : ∀ c ∈ l, p c = false) : l.dropWhile p = l := by
  cases l with
  | nil => rfl
  | cons x xs =>
    rw [List.dropWhile_cons, h x (List.mem_cons_self _ _)]
    simp

theorem trimChars_no_ws (l : List Char) (h : ∀ c ∈ l, isJsWs c = false) : trimChars l = l := by
  unfold trimChars
  rw [dropWhile_eq_self_of_neg _ _ h, dropWhile_eq_self_of_neg, List.reverse_reverse]
  intro c hc
  exact h c (by simpa using hc)

theorem intDecDigits_natCast (n : Nat) : intDecDigits ((n : Nat) : Int) = natDecDigits n := by
  unfold intDecDigits
  rw [if_neg (by exact Int.not_lt.mpr (Int.natCast_nonneg n))]
  simp

theorem padZeros_of_le (k : Nat) (l : List Char) (h : k ≤ l.length) : padZeros k l = l := by
  unfold padZeros
  rw [Nat.sub_eq_zero_of_le h]
  simp

theorem digitsVal_cons_zero (l : List Char) : digitsVal ('0' :: l) = digitsVal l := rfl

/-- Claim C7: for every valid (year, month) pair — a four-digit year and
1 ≤ month ≤ 12 — applying `parseCohortMonthKey` to the date string built
from the pair yields a key that, split on the dash, reproduces the
zero-padded year and the zero-padded month. -/
theorem claim_C7_key_roundtrip (y m : Nat) (hy1 : 1000 ≤ y) (hy2 : y ≤ 9999)
    (hm1 : 1 ≤ m) (hm2 : m ≤ 12) :
    splitChar '-' ((parseCohortMonthKey (builtDateString y m)).2).data =
      [padZeros 4 (natDecDigits y), padZeros 2 (natDecDigits m)] := by
  have hAlen : (natDecDigits y).length = 4 := by
    refine natDecDigits_length 3 y ?_ ?_
    · rw [(by norm_num : (10 : Nat) ^ 3 = 1000)]
      omega
    · rw [(by norm_num : (10 : Nat) ^ (3 + 1) = 10000)]
      omega
  have hA4 : padZeros 4 (natDecDigits y) = natDecDigits y :=
    padZeros_of_le 4 _ (by rw [hAlen])
  have hBdig : ∀ c ∈ padZeros 2 (natDecDigits m), isDigitChar c = true := by
    intro c hc
    unfold padZeros at hc
    rcases List.mem_append.mp hc with hrep | hdd
    · rw [List.eq_of_mem_replicate hrep]
      decide
    · exact natDecDigits_all_digits m c hdd
  have hBne : padZeros 2 (natDecDigits m) ≠ [] := by
    unfold padZeros
    intro h
    exact natDecDigits_ne_nil m (List.append_eq_nil.mp h).2
  have hBval : digitsVal (padZeros 2 (natDecDigits m)) = m := by
    by_cases hm10 : m < 10
    · have hlen : (natDecDigits m).length = 1 := by
        refine natDecDigits_length 0 m ?_ ?_
        · rw [(by norm_num : (10 : Nat) ^ 0 = 1)]
          omega
        · rw [(by norm_num : (10 : Nat) ^ (0 + 1) = 10)]
          omega
      unfold padZeros
      rw [hlen]
      rw [(by decide : (2 : Nat) - 1 = 1), List.replicate_one, List.singleton_append,
        digitsVal_cons_zero]
      exact digitsVal_natDecDigits m
    · have hlen : (natDecDigits m).length = 2 := by
        refine natDecDigits_length 1 m ?_ ?_
        · rw [(by norm_num : (10 : Nat) ^ 1 = 10)]
          omega
        · rw [(by norm_num : (10 : Nat) ^ (1 + 1) = 100)]
          omega
      rw [padZeros_of_le 2 _ (by rw [hlen])]
      exact digitsVal_natDecDigits m
  have hdashA : '-' ∉ natDecDigits y :=
    fun hmem => absurd (natDecDigits_all_digits y _ hmem) (by decide)
  have hdashB : '-' ∉ padZeros 2 (natDecDigits m) :=
    fun hmem => absurd (hBdig _ hmem) (by decide)
  have hdash01 : '-' ∉ (['0', '1'] : List Char) := by decide
  have hnospace : ' ' ∉ natDecDigits y ++ '-' ::
      (padZeros 2 (natDecDigits m) ++ '-' :: ['0', '1']) := by
    intro hmem
    rcases List.mem_append.mp hmem with hA | hrest
    · exact absurd (natDecDigits_all_digits y _ hA) (by decide)
    · rcases List.mem_cons.mp hrest with heq | hrest2
      · exact absurd heq (by decide)
      · rcases List.mem_append.mp hrest2 with hB | hrest3
        · exact absurd (hBdig _ hB) (by decide)
        · rcases List.mem_cons.mp hrest3 with heq | h01
          · exact absurd heq (by decide)
          · exact absurd h01 (by decide)
  have hnows : ∀ c ∈ natDecDigits y ++ '-' ::
      (padZeros 2 (natDecDigits m) ++ '-' :: ['0', '1']), isJsWs c = false := by
    intro c hc
    rcases List.mem_append.mp hc with hA | hrest
    · exact isDigitChar_not_ws c (natDecDigits_all_digits y _ hA)
    · rcases List.mem_cons.mp hrest with heq | hrest2
      · rw [heq]
        decide
      · rcases List.mem_append.mp hrest2 with hB | hrest3
        · exact isDigitChar_not_ws c (hBdig _ hB)
        · rcases List.mem_cons.mp hrest3 with heq | h01
          · rw [heq]
            decide
          · rcases List.mem_cons.mp h01 with heq | h1
            · rw [heq]
              decide
            · rcases List.mem_cons.mp h1 with heq | h0
              · rw [heq]
                decide
              · cases h0
  have hdata : (builtDateString y m).data =
      natDecDigits y ++ '-' :: (padZeros 2 (natDecDigits m) ++ '-' :: ['0', '1']) := by
    show padZeros 4 (natDecDigits y) ++ '-' ::
        (padZeros 2 (natDecDigits m) ++ '-' :: ['0', '1']) = _
    rw [hA4]
  have h1 : splitChar ' ' (builtDateString y m).data =
      [natDecDigits y ++ '-' :: (padZeros 2 (natDecDigits m) ++ '-' :: ['0', '1'])] := by
    rw [hdata]
    exact splitChar_no_sep _ _ hnospace
  have h3 : splitChar '-' (natDecDigits y ++ '-' ::
      (padZeros 2 (natDecDigits m) ++ '-' :: ['0', '1'])) =
      [natDecDigits y, padZeros 2 (natDecDigits m), ['0', '1']] := by
    rw [splitChar_sep_append _ _ _ hdashA, splitChar_sep_append _ _ _ hdashB,
      splitChar_no_sep _ _ hdash01]
  have h4 : jsParseInt (natDecDigits y) = some ((y : Nat) : Int) := by
    rw [jsParseInt_digits _ (natDecDigits_ne_nil y) (natDecDigits_all_digits y),
      digitsVal_natDecDigits]
  have h5 : jsParseInt (padZeros 2 (natDecDigits m)) = some ((m : Nat) : Int) := by
    rw [jsParseInt_digits _ hBne hBdig, hBval]
  have hkey : (parseCohortMonthKey (builtDateString y m)).2 =
      String.mk (natDecDigits y ++ '-' :: padZeros 2 (natDecDigits m)) := by
    unfold parseCohortMonthKey
    rw [h1]
    simp only [List.headD_cons]
    rw [trimChars_no_ws _ hnows, h3]
    simp only [List.headD_cons, List.drop_succ_cons, List.drop_zero]
    rw [h4, h5]
    simp only []
    rw [intDecDigits_natCast, intDecDigits_natCast]
  rw [hkey]
  show splitChar '-' (natDecDigits y ++ '-' :: padZeros 2 (natDecDigits m)) = _
  rw [splitChar_sep_append _ _ _ hdashA, splitChar_no_sep _ _ hdashB, hA4]

/-- Witness for C7 at (2025, 3): the key splits back into "2025" and
"03". -/
theorem claim_C7_key_roundtrip_witness :
    splitChar '-' ((parseCohortMonthKey (builtDateString 2025 3)).2).data =
      [padZeros 4 (natDecDigits 2025), padZeros 2 (natDecDigits 3)] :=
  claim_C7_key_roundtrip 2025 3 (by decide) (by decide) (by decide) (by decide)
